import Mathlib

/-!
Shallow embedding of the StreamHub playback core: the player store
(`src/src/stores/usePlayerStore.ts`) and the audio engine
(`AudioEngine` in the same compilation unit), restricted to the state
and actions the queue/EQ/volume claims are about.  UI-only fields
(`currentView`, `libraryTab`, `showNowPlaying`, `showLyrics`) are not
modelled; no claim mentions them.  Numbers are rationals; JS array
index arguments are integers.  The engine is modelled in its
initialized configuration (audio context, gain node and the ten EQ
filter nodes constructed), which is the configuration every claim is
about.
-/

namespace StreamHub

/-- The `source` field of `Track` in `src/src/types/index.ts`:
`'local' | 'spotify' | 'stream'`. -/
inductive TrackSource
  | localFile
  | spotify
  | stream
deriving DecidableEq

/-- Structure `Track` from `src/src/types/index.ts`, keeping the fields the player
core reads.  The optional `fileHandle` is modelled by its presence. -/
structure Track where
  id : String
  title : String
  artist : String
  album : String
  duration : ℚ
  source : TrackSource
  fileHandle : Bool
  streamUrl : Option String
deriving DecidableEq

/-- Type `RepeatMode`: `'off' | 'all' | 'one'` (the `modes` list in
`cycleRepeat`). -/
inductive RepeatMode
  | off
  | all
  | one
deriving DecidableEq

/-- Structure `EQPreset` from `src/src/types/index.ts`. -/
structure EQPreset where
  name : String
  bands : List ℚ
deriving DecidableEq

/-- The `EQ_PRESETS` table of `AudioEngine`. -/
def EQ_PRESETS : List EQPreset :=
  [ { name := "Flat", bands := [0, 0, 0, 0, 0, 0, 0, 0, 0, 0] },
    { name := "Bass Boost", bands := [6, 5, 4, 2, 0, 0, 0, 0, 0, 0] },
    { name := "Treble Boost", bands := [0, 0, 0, 0, 0, 1, 2, 4, 5, 6] },
    { name := "Vocal", bands := [-2, -1, 0, 2, 4, 4, 3, 1, 0, -1] },
    { name := "Electronic", bands := [4, 3, 0, -2, -1, 1, 0, 3, 4, 4] },
    { name := "Rock", bands := [4, 3, 1, 0, -1, 0, 1, 3, 4, 4] },
    { name := "Pop", bands := [-1, 1, 3, 4, 3, 1, 0, 1, 2, 2] },
    { name := "Jazz", bands := [2, 1, 0, 1, 2, 3, 3, 2, 2, 2] },
    { name := "Classical", bands := [3, 2, 1, 1, 0, 0, 0, 1, 2, 3] },
    { name := "Hip Hop", bands := [5, 4, 2, 1, 0, 0, 1, 0, 2, 2] } ]

/-- The active source slot of the engine's audio element: an object URL
wrapping local file bytes (`loadFile`) or a remote stream URL
(`loadStream`). -/
inductive AudioSrc
  | objectUrl
  | remote (url : String)
deriving DecidableEq

/-- The mutable state of the initialized `AudioEngine`: the gain node's
value, the `gain.value` of the ten `BiquadFilterNode`s, the audio
element's `currentTime`, `duration` and `paused` flags, the loaded
source and the track metadata slot.  A `duration` the platform reports
as `NaN` is represented as `0` (the code always reads it through
`|| 0`). -/
structure EngineState where
  gainValue : ℚ
  eqGains : List ℚ
  currentTime : ℚ
  duration : ℚ
  paused : Bool
  src : Option AudioSrc
  engineTrack : Option Track
deriving DecidableEq

namespace AudioEngine

/-- Engine `setVolume`: clamps into [0, 1] at the gain node. -/
def setVolume (volume : ℚ) (e : EngineState) : EngineState :=
  { e with gainValue := max 0 (min 1 volume) }

/-- Engine `setEQBand`: in-range index clamps the gain into
[-12, 12] and writes it to the filter node; out-of-range index is a
no-op. -/
def setEQBand (index : Int) (gain : ℚ) (e : EngineState) : EngineState :=
  if 0 ≤ index ∧ index < (e.eqGains.length : Int) then
    { e with eqGains := e.eqGains.set index.toNat (max (-12) (min 12 gain)) }
  else e

/-- Engine `setEQBands`: `gains.forEach((gain, index) =>
this.setEQBand(index, gain))`. -/
def setEQBands (gains : List ℚ) (e : EngineState) : EngineState :=
  (gains.enum).foldl (fun acc p => setEQBand (p.1 : Int) p.2 acc) e

/-- Engine `applyPreset`. -/
def applyPreset (preset : EQPreset) (e : EngineState) : EngineState :=
  setEQBands preset.bands e

/-- Engine `setEQEnabled`: when disabling, every filter node's
gain is forced to 0; enabling by itself changes nothing. -/
def setEQEnabled (enabled : Bool) (e : EngineState) : EngineState :=
  if enabled then e else { e with eqGains := e.eqGains.map (fun _ => 0) }

/-- Engine `seekTo`: `currentTime = Math.max(0, Math.min(time,
duration || 0))`. -/
def seekTo (time : ℚ) (e : EngineState) : EngineState :=
  { e with currentTime := max 0 (min time e.duration) }

/-- Effect of `audioElement.play()` reached through `AudioEngine.play`. -/
def play (e : EngineState) : EngineState :=
  { e with paused := false }

/-- Engine `pause`. -/
def pause (e : EngineState) : EngineState :=
  { e with paused := true }

/-- Private `loadSource`: assigns the audio element's source slot. -/
def loadSource (u : AudioSrc) (e : EngineState) : EngineState :=
  { e with src := some u }

/-- Engine `setCurrentTrack`. -/
def setCurrentTrack (t : Track) (e : EngineState) : EngineState :=
  { e with engineTrack := some t }

end AudioEngine

/-- The slice of the zustand store state the claims are about, together
with the engine state the store actions drive. -/
structure PlayerState where
  currentTrack : Option Track
  isPlaying : Bool
  progress : ℚ
  duration : ℚ
  volume : ℚ
  muted : Bool
  queue : List Track
  queueIndex : Int
  shuffle : Bool
  repeatMode : RepeatMode
  eqEnabled : Bool
  eqBands : List ℚ
  eqPresetName : String
  engine : EngineState
deriving DecidableEq

/-- Reading `queue[i]` for an integer index, as JS does: a negative
index (a non-index property access) and an index past the end both
yield `undefined`, modelled as `none`. -/
def jsIndex (l : List Track) (i : Int) : Option Track :=
  if 0 ≤ i then l.get? i.toNat else none

/-- Assignment `arr[i] = v` on a JS array of numbers.  A negative integer index
sets a non-index property and leaves the elements unchanged; an index
past the current length extends the array (the intervening holes, which
never arise in any statement below past the length-equal case, are
represented by 0). -/
def jsArraySet (l : List ℚ) (i : Int) (v : ℚ) : List ℚ :=
  if 0 ≤ i ∧ i.toNat < l.length then l.set i.toNat v
  else if i < 0 then l
  else l ++ List.replicate (i.toNat - l.length) 0 ++ [v]

/-- Action `setTrack`: records the current track in store and engine, then
loads the matching source kind. -/
def setTrack (track : Track) (s : PlayerState) : PlayerState :=
  let s1 : PlayerState :=
    { s with currentTrack := some track,
             engine := AudioEngine.setCurrentTrack track s.engine }
  if track.source = TrackSource.localFile ∧ track.fileHandle then
    { s1 with engine := AudioEngine.loadSource AudioSrc.objectUrl s1.engine }
  else
    match track.streamUrl with
    | some u => { s1 with engine := AudioEngine.loadSource (AudioSrc.remote u) s1.engine }
    | none => s1

/-- Expression `queue.findIndex((t) => t.id === track.id)`: the position of the
first id match, or -1 when there is none. -/
def jsFindIndex (q : List Track) (track : Track) : Int :=
  match q.findIdx? (fun t => t.id == track.id) with
  | some n => (n : Int)
  | none => -1

/-- Action `playTrack`: optionally replaces the queue (index = the track's
position, found by id, else 0 — `findIndex` returns -1 on no match),
then loads the track and starts playback. -/
def playTrack (track : Track) (queue? : Option (List Track)) (s : PlayerState) : PlayerState :=
  let s1 : PlayerState :=
    match queue? with
    | some q =>
        let index : Int := jsFindIndex q track
        { s with queue := q,
                 queueIndex := if 0 ≤ index then index else 0 }
    | none => s
  let s2 := setTrack track s1
  { s2 with engine := AudioEngine.play s2.engine, isPlaying := true }

/-- The tail of `next`: `queue[nextIndex]` is truthy exactly when the
index holds a track; then the index is committed and the track played. -/
def nextStep (nextIndex : Int) (s : PlayerState) : PlayerState :=
  match jsIndex s.queue nextIndex with
  | some nextTrack => playTrack nextTrack none { s with queueIndex := nextIndex }
  | none => s

/-- Action `next`: the shuffle branch picks `Math.floor(Math.random() *
queue.length)`, supplied here as the `randIndex` parameter; otherwise
the index advances by one, wrapping to 0 at the end only when repeat is
`'all'` and returning unchanged otherwise. -/
def next (randIndex : Nat) (s : PlayerState) : PlayerState :=
  if s.queue.length = 0 then s
  else if s.shuffle then nextStep (randIndex : Int) s
  else
    let nextIndex : Int := s.queueIndex + 1
    if (s.queue.length : Int) ≤ nextIndex then
      if s.repeatMode = RepeatMode.all then nextStep 0 s else s
    else nextStep nextIndex s

/-- Action `previous`: more than 3 seconds in restarts the current track;
otherwise the index moves back, wrapping to the last entry whenever it
is not strictly positive. -/
def previous (s : PlayerState) : PlayerState :=
  if 3 < s.progress then { s with engine := AudioEngine.seekTo 0 s.engine }
  else if s.queue.length = 0 then s
  else
    let prevIndex : Int :=
      if 0 < s.queueIndex then s.queueIndex - 1 else (s.queue.length : Int) - 1
    match jsIndex s.queue prevIndex with
    | some prevTrack => playTrack prevTrack none { s with queueIndex := prevIndex }
    | none => s

/-- Store `setVolume`: forwards to the engine and clears the muted
flag. -/
def setVolume (volume : ℚ) (s : PlayerState) : PlayerState :=
  { s with engine := AudioEngine.setVolume volume s.engine,
           volume := volume, muted := false }

/-- Action `toggleMute`: muting drives the engine volume to 0 leaving the
stored volume in place; unmuting restores the stored volume. -/
def toggleMute (s : PlayerState) : PlayerState :=
  if s.muted then
    { s with engine := AudioEngine.setVolume s.volume s.engine, muted := false }
  else
    { s with engine := AudioEngine.setVolume 0 s.engine, muted := true }

/-- Store `setEQBand`: forwards to the engine (which clamps), writes the
raw gain into `eqBands[index]` and marks the preset name `"Custom"`. -/
def setEQBand (index : Int) (gain : ℚ) (s : PlayerState) : PlayerState :=
  { s with engine := AudioEngine.setEQBand index gain s.engine,
           eqBands := jsArraySet s.eqBands index gain,
           eqPresetName := "Custom" }

/-- Store `setEQBands`. -/
def setEQBands (gains : List ℚ) (s : PlayerState) : PlayerState :=
  { s with engine := AudioEngine.setEQBands gains s.engine, eqBands := gains }

/-- Action `applyEQPreset`: looks the name up in `EQ_PRESETS`; on a match the
preset is applied to the engine and mirrored into the store, otherwise
nothing happens. -/
def applyEQPreset (presetName : String) (s : PlayerState) : PlayerState :=
  match EQ_PRESETS.find? (fun p => p.name == presetName) with
  | some preset =>
      { s with engine := AudioEngine.applyPreset preset s.engine,
               eqBands := preset.bands, eqPresetName := presetName }
  | none => s

/-- Action `toggleEQ`: flips the flag, bypasses or un-bypasses the graph, and
on re-enable re-applies the stored band vector to the engine. -/
def toggleEQ (s : PlayerState) : PlayerState :=
  let newEnabled := !s.eqEnabled
  let s1 : PlayerState :=
    { s with engine := AudioEngine.setEQEnabled newEnabled s.engine,
             eqEnabled := newEnabled }
  if newEnabled then
    { s1 with engine := AudioEngine.setEQBands s1.eqBands s1.engine }
  else s1

/-- Action `addToQueue`: appends; the index is untouched. -/
def addToQueue (track : Track) (s : PlayerState) : PlayerState :=
  { s with queue := s.queue ++ [track] }

/-- Expression `queue.filter((_, i) => i !== index)` from `removeFromQueue`:
filter by position, `pos` being the position of the head of the
remaining list. -/
def filterIdxNe (index : Int) (pos : Nat) : List Track → List Track
  | [] => []
  | t :: rest =>
      if (pos : Int) = index then filterIdxNe index (pos + 1) rest
      else t :: filterIdxNe index (pos + 1) rest

/-- Action `removeFromQueue`: drops the position, decrements the index when the
removal was before it, and clamps it to the new last position when the
removed position was the index itself and now overruns. -/
def removeFromQueue (index : Int) (s : PlayerState) : PlayerState :=
  let newQueue := filterIdxNe index 0 s.queue
  let newIndex : Int :=
    if index < s.queueIndex then s.queueIndex - 1
    else if index = s.queueIndex ∧ (newQueue.length : Int) ≤ s.queueIndex then
      (newQueue.length : Int) - 1
    else s.queueIndex
  { s with queue := newQueue, queueIndex := newIndex }

/-- Action `clearQueue`. -/
def clearQueue (s : PlayerState) : PlayerState :=
  { s with queue := [], queueIndex := -1 }

/-- The clamping `Array.prototype.splice` applies to its `start`
argument: negative values count from the end (bounded below by 0),
values past the length are bounded by the length. -/
def spliceStart (len : Nat) (i : Int) : Nat :=
  if i < 0 then (max ((len : Int) + i) 0).toNat else min i.toNat len

/-- Action `reorderQueue`: `splice(fromIndex, 1)` out, `splice(toIndex, 0,
removed)` back in, then the index-tracking cascade.  When the first
splice removes nothing the source inserts the JS value `undefined` into
the queue, which no `Track` value represents; that branch keeps the
shortened list instead and no statement below depends on it. -/
def reorderQueue (fromIndex toIndex : Int) (s : PlayerState) : PlayerState :=
  let start := spliceStart s.queue.length fromIndex
  let removed : Option Track := s.queue.get? start
  let q1 := s.queue.eraseIdx start
  let newQueue :=
    match removed with
    | some t => q1.insertIdx (spliceStart q1.length toIndex) t
    | none => q1
  let newIndex : Int :=
    if s.queueIndex = fromIndex then toIndex
    else if fromIndex < s.queueIndex ∧ s.queueIndex ≤ toIndex then s.queueIndex - 1
    else if s.queueIndex < fromIndex ∧ toIndex ≤ s.queueIndex then s.queueIndex + 1
    else s.queueIndex
  { s with queue := newQueue, queueIndex := newIndex }

/-- The queue-index invariant of the spec's data model: -1 or a valid
position. -/
def queueInv (s : PlayerState) : Prop :=
  s.queueIndex = -1 ∨ (0 ≤ s.queueIndex ∧ s.queueIndex < (s.queue.length : Int))

instance (s : PlayerState) : Decidable (queueInv s) := by
  unfold queueInv; infer_instance

/-- A mutation kept the index on the entry that was current before. -/
def pointsSame (s s' : PlayerState) : Prop :=
  s'.queueIndex ≠ -1 → jsIndex s'.queue s'.queueIndex = jsIndex s.queue s.queueIndex

/-- The engine exactly as `initialize()` leaves it: gain node at its
default value 1, the ten filter nodes flat, nothing loaded. -/
def initEngine : EngineState :=
  { gainValue := 1, eqGains := List.replicate 10 0, currentTime := 0,
    duration := 0, paused := true, src := none, engineTrack := none }

/-- The store's initial state (with the initialized engine attached). -/
def initState : PlayerState :=
  { currentTrack := none, isPlaying := false, progress := 0, duration := 0,
    volume := mkRat 8 10, muted := false, queue := [], queueIndex := -1,
    shuffle := false, repeatMode := RepeatMode.off, eqEnabled := true,
    eqBands := List.replicate 10 0, eqPresetName := "Flat",
    engine := initEngine }

/-- A sample streamed track for concrete instantiations. -/
def mkTrack (n : String) : Track :=
  { id := n, title := n, artist := "", album := "", duration := 100,
    source := TrackSource.stream, fileHandle := false, streamUrl := some n }

/-- A 3-track queue with the last entry current. -/
def demoState3 : PlayerState :=
  { initState with queue := [mkTrack "a", mkTrack "b", mkTrack "c"],
                   queueIndex := 2, currentTrack := some (mkTrack "c") }

/-! Helper lemmas about the JS-array surgery used by the queue
mutations. -/

theorem filterIdxNe_of_lt (i : Int) (l : List Track) : ∀ (p : Nat), i < (p : Int) →
    filterIdxNe i p l = l := by
  induction l with
  | nil => intro p _; rfl
  | cons t rest ih =>
      intro p h
      unfold filterIdxNe
      rw [if_neg (by omega), ih (p + 1) (by push_cast; omega)]

theorem filterIdxNe_of_ge (i : Int) (l : List Track) : ∀ (p : Nat), (p : Int) ≤ i →
    filterIdxNe i p l = l.eraseIdx (i - p).toNat := by
  induction l with
  | nil => intro p _; rfl
  | cons t rest ih =>
      intro p h
      unfold filterIdxNe
      by_cases hc : (p : Int) = i
      · rw [if_pos hc, filterIdxNe_of_lt i rest (p + 1) (by omega)]
        have h0 : (i - p).toNat = 0 := by omega
        rw [h0]
        rfl
      · rw [if_neg hc, ih (p + 1) (by push_cast; omega)]
        have h1 : (i - p).toNat = (i - ((p : Int) + 1)).toNat + 1 := by omega
        have h2 : ((p + 1 : Nat) : Int) = (p : Int) + 1 := by push_cast; ring
        rw [h2, h1]
        rfl

theorem eraseIdx_of_len_le (l : List α) : ∀ (k : Nat), l.length ≤ k → l.eraseIdx k = l := by
  induction l with
  | nil => intro k _; rfl
  | cons a rest ih =>
      intro k h
      match k with
      | k + 1 =>
          show a :: rest.eraseIdx k = a :: rest
          rw [ih k (by simpa using h)]

theorem length_eraseIdx_lt (l : List α) : ∀ (k : Nat), k < l.length →
    (l.eraseIdx k).length = l.length - 1 := by
  induction l with
  | nil => intro k h; simp at h
  | cons a rest ih =>
      intro k h
      match k with
      | 0 => simp [List.eraseIdx]
      | k + 1 =>
          show (a :: rest.eraseIdx k).length = (a :: rest).length - 1
          have hk : k < rest.length := by simpa using h
          simp [ih k hk]
          omega

theorem get?_eraseIdx_lt (l : List α) : ∀ (k j : Nat), j < k →
    (l.eraseIdx k).get? j = l.get? j := by
  induction l with
  | nil => intro k j _; rfl
  | cons a rest ih =>
      intro k j h
      match k, j with
      | k + 1, 0 => rfl
      | k + 1, j + 1 =>
          show (rest.eraseIdx k).get? j = rest.get? j
          exact ih k j (by omega)

theorem get?_eraseIdx_ge (l : List α) : ∀ (k j : Nat), k ≤ j → k < l.length →
    (l.eraseIdx k).get? j = l.get? (j + 1) := by
  induction l with
  | nil => intro k j _ hk; simp at hk
  | cons a rest ih =>
      intro k j h hk
      match k with
      | 0 => rfl
      | k + 1 =>
          match j with
          | j + 1 =>
              show (rest.eraseIdx k).get? j = rest.get? (j + 1)
              exact ih k j (by omega) (by simpa using hk)

theorem length_insertIdx_le (a : α) (l : List α) : ∀ (n : Nat), n ≤ l.length →
    (List.insertIdx n a l).length = l.length + 1 := by
  induction l with
  | nil =>
      intro n h
      match n with
      | 0 => rfl
  | cons b rest ih =>
      intro n h
      match n with
      | 0 => rfl
      | n + 1 =>
          show (b :: List.insertIdx n a rest).length = (b :: rest).length + 1
          simp [ih n (by simpa using h)]

theorem get?_insertIdx_lt (a : α) (l : List α) : ∀ (n j : Nat), j < n →
    (List.insertIdx n a l).get? j = l.get? j := by
  induction l with
  | nil =>
      intro n j h
      match n with
      | n + 1 => rfl
  | cons b rest ih =>
      intro n j h
      match n with
      | n + 1 =>
          match j with
          | 0 => rfl
          | j + 1 =>
              show (List.insertIdx n a rest).get? j = rest.get? j
              exact ih n j (by omega)

theorem get?_insertIdx_self (a : α) (l : List α) : ∀ (n : Nat), n ≤ l.length →
    (List.insertIdx n a l).get? n = some a := by
  induction l with
  | nil =>
      intro n h
      match n with
      | 0 => rfl
  | cons b rest ih =>
      intro n h
      match n with
      | 0 => rfl
      | n + 1 =>
          show (List.insertIdx n a rest).get? n = some a
          exact ih n (by simpa using h)

theorem get?_insertIdx_gt (a : α) (l : List α) : ∀ (n j : Nat), n < j → n ≤ l.length →
    (List.insertIdx n a l).get? j = l.get? (j - 1) := by
  induction l with
  | nil =>
      intro n j h hn
      match n, hn with
      | 0, _ =>
          match j with
          | j + 1 => rfl
  | cons b rest ih =>
      intro n j h hn
      match n with
      | 0 =>
          match j with
          | j + 1 => rfl
      | n + 1 =>
          match j with
          | j + 1 =>
              show (List.insertIdx n a rest).get? j = (b :: rest).get? (j + 1 - 1)
              have hj : n < j := by omega
              rw [ih n j hj (by simpa using hn)]
              match j, hj with
              | j + 1, _ => rfl

theorem get?_append_left (l₁ l₂ : List α) : ∀ (j : Nat), j < l₁.length →
    (l₁ ++ l₂).get? j = l₁.get? j := by
  induction l₁ with
  | nil => intro j h; simp at h
  | cons a rest ih =>
      intro j h
      match j with
      | 0 => rfl
      | j + 1 =>
          show (rest ++ l₂).get? j = rest.get? j
          exact ih j (by simpa using h)

theorem get?_isSome_of_lt (l : List α) : ∀ (n : Nat), n < l.length →
    ∃ a, l.get? n = some a := by
  induction l with
  | nil => intro n h; simp at h
  | cons a rest ih =>
      intro n h
      match n with
      | 0 => exact ⟨a, rfl⟩
      | n + 1 => exact ih n (by simpa using h)

theorem take_succ_set (g : α) (l : List α) : ∀ (k : Nat), k < l.length →
    (l.set k g).take (k + 1) = l.take k ++ [g] := by
  induction l with
  | nil => intro k h; simp at h
  | cons a rest ih =>
      intro k h
      match k with
      | 0 => rfl
      | k + 1 =>
          show a :: (rest.set k g).take (k + 1) = a :: (rest.take k ++ [g])
          rw [ih k (by simpa using h)]

theorem drop_set_of_lt (g : α) (l : List α) : ∀ (k m : Nat), k < m →
    (l.set k g).drop m = l.drop m := by
  induction l with
  | nil => intro k m _; rfl
  | cons a rest ih =>
      intro k m h
      match k, m with
      | 0, m + 1 => rfl
      | k + 1, m + 1 =>
          show (rest.set k g).drop m = rest.drop m
          exact ih k m (by omega)

/-! The engine-side effect of `setEQBands`: with gains already in
[-12, 12] the written window is the gains list verbatim. -/

theorem setEQBand_eqGains_length (i : Int) (g : ℚ) (e : EngineState) :
    (AudioEngine.setEQBand i g e).eqGains.length = e.eqGains.length := by
  unfold AudioEngine.setEQBand
  split
  · simp
  · rfl

theorem setEQBands_fold (gains : List ℚ) : ∀ (k : Nat) (e : EngineState),
    k + gains.length ≤ e.eqGains.length →
    (∀ g ∈ gains, -12 ≤ g ∧ g ≤ 12) →
    ((gains.enumFrom k).foldl (fun acc p => AudioEngine.setEQBand (p.1 : Int) p.2 acc) e).eqGains
      = e.eqGains.take k ++ gains ++ e.eqGains.drop (k + gains.length) := by
  induction gains with
  | nil =>
      intro k e hfit hr
      show e.eqGains = e.eqGains.take k ++ [] ++ e.eqGains.drop (k + 0)
      simp
  | cons g rest ih =>
      intro k e hfit hr
      have hk : k < e.eqGains.length := by
        simp only [List.length_cons] at hfit; omega
      have hg := hr g (by simp)
      have htn : ((k : Int)).toNat = k := by omega
      have hstep : AudioEngine.setEQBand (k : Int) g e
          = { e with eqGains := e.eqGains.set k g } := by
        unfold AudioEngine.setEQBand
        rw [if_pos ⟨by omega, by exact_mod_cast hk⟩, htn,
          min_eq_right hg.2, max_eq_right hg.1]
      rw [show List.enumFrom k (g :: rest) = (k, g) :: List.enumFrom (k + 1) rest from rfl,
        List.foldl_cons]
      show ((List.enumFrom (k + 1) rest).foldl
          (fun acc p => AudioEngine.setEQBand (p.1 : Int) p.2 acc)
          (AudioEngine.setEQBand (k : Int) g e)).eqGains = _
      rw [hstep]
      rw [ih (k + 1) { e with eqGains := e.eqGains.set k g }
        (by simp only [List.length_set]; simp only [List.length_cons] at hfit; omega)
        (fun g' hg' => hr g' (by simp [hg']))]
      show (e.eqGains.set k g).take (k + 1) ++ rest
          ++ (e.eqGains.set k g).drop (k + 1 + rest.length)
        = e.eqGains.take k ++ g :: rest ++ e.eqGains.drop (k + (rest.length + 1))
      rw [take_succ_set g e.eqGains k hk,
        drop_set_of_lt g e.eqGains k (k + 1 + rest.length) (by omega),
        show k + (rest.length + 1) = k + 1 + rest.length from by omega]
      simp

theorem setEQBands_exact (gains : List ℚ) (e : EngineState)
    (hlen : gains.length = e.eqGains.length)
    (hr : ∀ g ∈ gains, -12 ≤ g ∧ g ≤ 12) :
    (AudioEngine.setEQBands gains e).eqGains = gains := by
  have h := setEQBands_fold gains 0 e (by omega) hr
  unfold AudioEngine.setEQBands
  rw [show gains.enum = List.enumFrom 0 gains from rfl, h]
  simp [hlen]

/-! `playTrack` with no queue argument commits the already-set index,
records the track as current and starts playback; the store fields the
queue claims read are otherwise untouched. -/

theorem setTrack_fields (t : Track) (s : PlayerState) :
    (setTrack t s).queueIndex = s.queueIndex ∧
    (setTrack t s).currentTrack = some t ∧
    (setTrack t s).queue = s.queue ∧
    (setTrack t s).repeatMode = s.repeatMode ∧
    (setTrack t s).shuffle = s.shuffle := by
  unfold setTrack
  split
  · exact ⟨rfl, rfl, rfl, rfl, rfl⟩
  · split <;> exact ⟨rfl, rfl, rfl, rfl, rfl⟩

theorem playTrack_none_fields (t : Track) (s : PlayerState) :
    (playTrack t none s).queueIndex = s.queueIndex ∧
    (playTrack t none s).currentTrack = some t ∧
    (playTrack t none s).isPlaying = true ∧
    (playTrack t none s).queue = s.queue ∧
    (playTrack t none s).repeatMode = s.repeatMode ∧
    (playTrack t none s).shuffle = s.shuffle := by
  obtain ⟨h1, h2, h3, h4, h5⟩ := setTrack_fields t s
  exact ⟨h1, h2, rfl, h3, h4, h5⟩

theorem get?_set_self (g : α) (l : List α) : ∀ (n : Nat), n < l.length →
    (l.set n g).get? n = some g := by
  induction l with
  | nil => intro n h; simp at h
  | cons a rest ih =>
      intro n h
      match n with
      | 0 => rfl
      | n + 1 =>
          show (rest.set n g).get? n = some g
          exact ih n (by simpa using h)

/-! Claim theorems. -/

/-- C9: for every volume value v, the store's setVolume(v) sets the muted
flag to false in addition to storing v and forwarding it (clamped at the
gain node) to the engine — so adjusting the volume while muted always
un-mutes, even when v equals the current volume or v = 0. -/
theorem c9_setVolume_clears_muted (v : ℚ) (s : PlayerState) :
    (setVolume v s).muted = false ∧ (setVolume v s).volume = v ∧
    (setVolume v s).engine.gainValue = max 0 (min 1 v) :=
  ⟨rfl, rfl, rfl⟩

/-- C8: for any volume v in the volume range [0, 1] (in particular
v = 0.7), setVolume(v); toggleMute(); toggleMute() restores the effective
engine volume to exactly v — mute stores the pre-mute volume and drives
the engine volume to 0, and unmute restores exactly that stored value,
not a default. -/
theorem c8_mute_roundtrip (v : ℚ) (s : PlayerState) (h0 : 0 ≤ v) (h1 : v ≤ 1) :
    (toggleMute (setVolume v s)).engine.gainValue = 0 ∧
    (toggleMute (setVolume v s)).muted = true ∧
    (toggleMute (setVolume v s)).volume = v ∧
    (toggleMute (toggleMute (setVolume v s))).engine.gainValue = v ∧
    (toggleMute (toggleMute (setVolume v s))).muted = false ∧
    (toggleMute (toggleMute (setVolume v s))).volume = v := by
  have hv : max 0 (min 1 v) = v := by rw [min_eq_right h1, max_eq_right h0]
  have hz : max (0 : ℚ) (min 1 0) = 0 := by norm_num
  simp [toggleMute, setVolume, AudioEngine.setVolume, hv, hz]

/-- Witness for C8 at v = 0.7 on the initial state. -/
theorem c8_witness :
    (0 : ℚ) ≤ mkRat 7 10 ∧
    (toggleMute (toggleMute (setVolume (mkRat 7 10) initState))).engine.gainValue
      = mkRat 7 10 :=
  ⟨by decide, (c8_mute_roundtrip (mkRat 7 10) initState (by decide) (by decide)).2.2.2.1⟩

/-- Progress 1.5 s into the second entry of a 3-track queue. -/
def demoPrev15 : PlayerState :=
  { demoState3 with queueIndex := 1, currentTrack := some (mkTrack "b"),
                    progress := mkRat 3 2,
                    engine := { initEngine with currentTime := mkRat 3 2, duration := 200 } }

/-- Progress 10 s at index 0 of the 3-track queue, parametric in the
repeat mode. -/
def demoPrev10 (r : RepeatMode) : PlayerState :=
  { demoState3 with queueIndex := 0, currentTrack := some (mkTrack "a"),
                    progress := 10,
                    engine := { initEngine with currentTime := 10, duration := 200 },
                    repeatMode := r }

/-- C4 counterexample: the claim has the threshold backwards.  At
progress 10 s (> 3 s) from index 0 the code restarts the current track
and leaves the index at 0, not 2; at progress 1.5 s (≤ 3 s) from index 1
the code moves the index to 0 instead of leaving it unchanged. -/
theorem c4_counterexample :
    (previous (demoPrev10 RepeatMode.off)).queueIndex = 0 ∧
    ¬ (previous (demoPrev10 RepeatMode.off)).queueIndex = 2 ∧
    (previous demoPrev15).queueIndex = 0 ∧
    ¬ (previous demoPrev15).queueIndex = 1 := by decide

/-- C4 amended: the two progress values land on the opposite sides of
the threshold from what the claim says.  previous() at progress 1.5 s
(within the 3-second threshold) moves to the prior entry — from index 1
to index 0 with playback started, and from index 0 it wraps to index 2
regardless of repeat mode; previous() at progress 10 s (past the
threshold) seeks the engine to time 0 and leaves the index and the rest
of the state unchanged, again for every repeat mode. -/
theorem c4_previous_thresholds :
    ((previous demoPrev15).queueIndex = 0 ∧ (previous demoPrev15).isPlaying = true) ∧
    (∀ r : RepeatMode,
      (previous { demoPrev15 with queueIndex := 0, currentTrack := some (mkTrack "a"),
                                  repeatMode := r }).queueIndex = 2) ∧
    (∀ r : RepeatMode,
      previous (demoPrev10 r)
        = { demoPrev10 r with
              engine := { (demoPrev10 r).engine with currentTime := 0 } }) := by
  refine ⟨by decide, ?_, ?_⟩
  · intro r; cases r <;> decide
  · intro r; cases r <;> decide

/-- C5 counterexample: setEQBand(3, 20) stores the raw 20, not the
clamped 12, as the EQ State gain of band 3. -/
theorem c5_counterexample :
    (setEQBand 3 20 initState).eqBands.get? 3 = some 20 ∧
    ¬ (setEQBand 3 20 initState).eqBands.get? 3 = some 12 := by decide

/-- C5 amended: setEQBand clamps the gain applied to the audio graph
into [-12, 12] for every in-range band index (so setEQBand(3, 20)
applies 12 and setEQBand(3, -20) applies -12), while the stored EQ State
gain keeps the raw argument; an out-of-range index leaves the graph
untouched; and every setEQBand call — in particular any call issued
after applyPreset — changes the tracked preset name to "Custom". -/
theorem c5_eq_band_clamping (s : PlayerState) (i : Int) (g : ℚ) :
    (0 ≤ i → i < (s.engine.eqGains.length : Int) →
      (setEQBand i g s).engine.eqGains.get? i.toNat = some (max (-12) (min 12 g)) ∧
      -12 ≤ max (-12 : ℚ) (min 12 g) ∧ max (-12 : ℚ) (min 12 g) ≤ 12) ∧
    (¬ (0 ≤ i ∧ i < (s.engine.eqGains.length : Int)) →
      (setEQBand i g s).engine.eqGains = s.engine.eqGains) ∧
    (0 ≤ i → i.toNat < s.eqBands.length →
      (setEQBand i g s).eqBands.get? i.toNat = some g) ∧
    (setEQBand i g s).eqPresetName = "Custom" ∧
    (∀ name, (setEQBand i g (applyEQPreset name s)).eqPresetName = "Custom") := by
  refine ⟨?_, ?_, ?_, rfl, fun _ => rfl⟩
  · intro h0 hlt
    constructor
    · show (AudioEngine.setEQBand i g s.engine).eqGains.get? i.toNat = _
      unfold AudioEngine.setEQBand
      rw [if_pos ⟨h0, hlt⟩]
      exact get?_set_self _ _ _ (by omega)
    · exact ⟨le_max_left _ _, max_le (by norm_num) (min_le_left _ _)⟩
  · intro h
    show (AudioEngine.setEQBand i g s.engine).eqGains = s.engine.eqGains
    unfold AudioEngine.setEQBand
    rw [if_neg h]
  · intro h0 hlt
    show (jsArraySet s.eqBands i g).get? i.toNat = some g
    unfold jsArraySet
    rw [if_pos ⟨h0, hlt⟩]
    exact get?_set_self _ _ _ hlt

/-- Witness for C5 amended at setEQBand(3, 20): the graph gain is 12,
the stored gain is the raw 20, the name is "Custom". -/
theorem c5_witness :
    (setEQBand 3 20 initState).engine.eqGains.get? 3 = some 12 ∧
    (setEQBand 3 20 initState).eqBands.get? 3 = some 20 := by
  have h := c5_eq_band_clamping initState 3 20
  exact ⟨((h.1 (by decide) (by decide)).1).trans (by decide),
    (h.2.2.1 (by decide) (by decide)).trans (by decide)⟩

/-- C6 counterexample: the store setEQBand with the out-of-range band
index 10 extends the stored gain vector to length 11 — it is neither a
clamp nor a no-op, and the gain vector does not keep its fixed length of
10. -/
theorem c6_counterexample :
    (setEQBand 10 0 initState).eqBands.length = 11 := by decide

/-- C6 amended: defensiveness holds at the engine and for past-the-end
queue indices: an out-of-range engine EQ band index is a silent no-op,
the engine gain vector keeps its length under every setEQBand call, and
removeFromQueue with an index at or past the queue length leaves the
state (queue entries included) unchanged; no indexed operation raises an
error.  The store setEQBand, however, extends the stored gain vector for
indices at or past its length, and negative index arguments to
removeFromQueue/reorderQueue do mutate state. -/
theorem c6_defensive_indices (s : PlayerState) (e : EngineState) (i : Int) (g : ℚ)
    (hInv : queueInv s) :
    (¬ (0 ≤ i ∧ i < (e.eqGains.length : Int)) → AudioEngine.setEQBand i g e = e) ∧
    (AudioEngine.setEQBand i g e).eqGains.length = e.eqGains.length ∧
    ((s.queue.length : Int) ≤ i → removeFromQueue i s = s) := by
  refine ⟨?_, setEQBand_eqGains_length i g e, ?_⟩
  · intro h
    unfold AudioEngine.setEQBand
    rw [if_neg h]
  · intro hle
    have h0 : (0 : Int) ≤ i := le_trans (Int.ofNat_nonneg _) hle
    have hq : filterIdxNe i 0 s.queue = s.queue := by
      rw [filterIdxNe_of_ge i s.queue 0 (by exact_mod_cast h0)]
      exact eraseIdx_of_len_le s.queue _ (by omega)
    simp only [removeFromQueue, hq]
    rw [if_neg (by rcases hInv with h | h <;> omega),
      if_neg (by rcases hInv with h | h <;> omega)]

/-- Witness for C6 amended: removing at index 5 of the 3-track queue is
a complete no-op. -/
theorem c6_witness : removeFromQueue 5 demoState3 = demoState3 :=
  (c6_defensive_indices demoState3 initEngine 5 0 (by decide)).2.2 (by decide)

/-- C10: applyEQPreset with a name matching no entry of EQ_PRESETS is a
complete no-op on the whole state; with a matching name the preset's
band gains are applied to the engine verbatim (the engine has 10 bands
and every preset gain is within the clamp range), copied into eqBands,
and the name recorded. -/
theorem c10_applyEQPreset (s : PlayerState) (name : String) :
    ((∀ p ∈ EQ_PRESETS, p.name ≠ name) → applyEQPreset name s = s) ∧
    (∀ p, EQ_PRESETS.find? (fun q => q.name == name) = some p →
      (applyEQPreset name s).eqBands = p.bands ∧
      (applyEQPreset name s).eqPresetName = name ∧
      (s.engine.eqGains.length = 10 →
        (applyEQPreset name s).engine.eqGains = p.bands)) := by
  constructor
  · intro h
    have hn : EQ_PRESETS.find? (fun q => q.name == name) = none := by
      rw [List.find?_eq_none]
      intro p hp
      simpa using h p hp
    unfold applyEQPreset
    rw [hn]
  · intro p hp
    have hmem : p ∈ EQ_PRESETS := List.mem_of_find?_eq_some hp
    have hall : ∀ q ∈ EQ_PRESETS, q.bands.length = 10 ∧
        ∀ g ∈ q.bands, -12 ≤ g ∧ g ≤ 12 := by decide
    unfold applyEQPreset
    rw [hp]
    refine ⟨rfl, rfl, fun hlen => ?_⟩
    show (AudioEngine.applyPreset p s.engine).eqGains = p.bands
    unfold AudioEngine.applyPreset
    exact setEQBands_exact p.bands s.engine
      (by rw [(hall p hmem).1, hlen]) (hall p hmem).2

/-- C2: for every non-empty queue with shuffle disabled (and the index
within the invariant range), next() advances the index by one and starts
playback of that entry; when the incremented index overruns the queue
end, repeat mode "all" wraps the index to 0 and starts playback of track
0, and any other repeat mode makes next() a no-op leaving the whole
state exactly as it was. -/
theorem c2_next_end_of_queue (s : PlayerState) (r : Nat)
    (hne : s.queue ≠ []) (hsh : s.shuffle = false)
    (hlo : -1 ≤ s.queueIndex) (hhi : s.queueIndex < (s.queue.length : Int)) :
    (s.queueIndex + 1 < (s.queue.length : Int) →
      (next r s).queueIndex = s.queueIndex + 1 ∧
      (next r s).currentTrack = jsIndex s.queue (s.queueIndex + 1) ∧
      (next r s).isPlaying = true) ∧
    ((s.queue.length : Int) ≤ s.queueIndex + 1 → s.repeatMode = RepeatMode.all →
      (next r s).queueIndex = 0 ∧
      (next r s).currentTrack = jsIndex s.queue 0 ∧
      (next r s).isPlaying = true) ∧
    ((s.queue.length : Int) ≤ s.queueIndex + 1 → s.repeatMode ≠ RepeatMode.all →
      next r s = s) := by
  have hlen : ¬ s.queue.length = 0 := fun h => hne (List.length_eq_zero.mp h)
  simp only [next]
  rw [if_neg hlen, if_neg (by simp [hsh])]
  refine ⟨fun hA => ?_, fun hB hall => ?_, fun hB hnall => ?_⟩
  · rw [if_neg (not_le.mpr hA)]
    obtain ⟨t, ht⟩ := get?_isSome_of_lt s.queue (s.queueIndex + 1).toNat (by omega)
    have hjs : jsIndex s.queue (s.queueIndex + 1) = some t := by
      unfold jsIndex
      rw [if_pos (by omega), ht]
    unfold nextStep
    rw [hjs]
    obtain ⟨p1, p2, p3, _, _, _⟩ :=
      playTrack_none_fields t { s with queueIndex := s.queueIndex + 1 }
    exact ⟨p1, by rw [p2], p3⟩
  · rw [if_pos hB, if_pos hall]
    obtain ⟨t, ht⟩ := get?_isSome_of_lt s.queue ((0 : Int)).toNat (by omega)
    have hjs : jsIndex s.queue 0 = some t := by
      unfold jsIndex
      rw [if_pos (by omega), ht]
    unfold nextStep
    rw [hjs]
    obtain ⟨p1, p2, p3, _, _, _⟩ :=
      playTrack_none_fields t { s with queueIndex := (0 : Int) }
    exact ⟨p1, by rw [p2], p3⟩
  · rw [if_pos hB, if_neg hnall]

/-- Witness for C2 on the spec's 3-track queue at index 2: repeat "off"
leaves the state untouched; repeat "all" wraps to index 0 and starts
playing. -/
theorem c2_witness :
    next 0 demoState3 = demoState3 ∧
    (next 0 { demoState3 with repeatMode := RepeatMode.all }).queueIndex = 0 ∧
    (next 0 { demoState3 with repeatMode := RepeatMode.all }).isPlaying = true := by
  have hoff := c2_next_end_of_queue demoState3 0
    (by decide) (by decide) (by decide) (by decide)
  have hall := c2_next_end_of_queue { demoState3 with repeatMode := RepeatMode.all } 0
    (by decide) (by decide) (by decide) (by decide)
  exact ⟨hoff.2.2 (by decide) (by decide),
    (hall.2.1 (by decide) (by decide)).1, (hall.2.1 (by decide) (by decide)).2.2⟩

/-- C3: whenever strictly more than 3 seconds of progress have elapsed,
previous() seeks the engine to time 0 and changes nothing else (in
particular the queue index); otherwise, on a non-empty queue with a
valid index, previous() moves the index to the prior entry, wrapping
from index 0 to the last entry, and starts playback of it — with no
condition on the repeat mode, which is universally quantified within the
state. -/
theorem c3_previous_threshold (s : PlayerState) (hdur : 0 ≤ s.engine.duration) :
    (3 < s.progress →
      previous s = { s with engine := { s.engine with currentTime := 0 } }) ∧
    (s.progress ≤ 3 → s.queue ≠ [] →
      0 ≤ s.queueIndex → s.queueIndex < (s.queue.length : Int) →
      (previous s).queueIndex
        = (if s.queueIndex = 0 then (s.queue.length : Int) - 1 else s.queueIndex - 1) ∧
      (previous s).currentTrack
        = jsIndex s.queue
            (if s.queueIndex = 0 then (s.queue.length : Int) - 1 else s.queueIndex - 1) ∧
      (previous s).isPlaying = true) := by
  constructor
  · intro hgt
    simp only [previous]
    rw [if_pos hgt]
    unfold AudioEngine.seekTo
    have harg : max 0 (min 0 s.engine.duration) = 0 := by
      rw [min_eq_left hdur]
      exact max_self 0
    rw [harg]
  · intro hle hne h0 hhi
    have hlen : ¬ s.queue.length = 0 := fun h => hne (List.length_eq_zero.mp h)
    have hlen1 : 0 < s.queue.length := Nat.pos_of_ne_zero hlen
    simp only [previous]
    rw [if_neg (not_lt.mpr hle), if_neg hlen]
    have hbr : (if 0 < s.queueIndex then s.queueIndex - 1 else (s.queue.length : Int) - 1)
        = (if s.queueIndex = 0 then (s.queue.length : Int) - 1 else s.queueIndex - 1) := by
      by_cases hq : s.queueIndex = 0
      · rw [if_neg (by omega), if_pos hq]
      · rw [if_pos (by omega), if_neg hq]
    rw [hbr]
    have hpb : 0 ≤ (if s.queueIndex = 0 then (s.queue.length : Int) - 1 else s.queueIndex - 1)
        ∧ (if s.queueIndex = 0 then (s.queue.length : Int) - 1 else s.queueIndex - 1)
          < (s.queue.length : Int) := by
      by_cases hq : s.queueIndex = 0
      · rw [if_pos hq]; omega
      · rw [if_neg hq]; omega
    obtain ⟨t, ht⟩ := get?_isSome_of_lt s.queue
      ((if s.queueIndex = 0 then (s.queue.length : Int) - 1 else s.queueIndex - 1)).toNat
      (by omega)
    have hjs : jsIndex s.queue
        (if s.queueIndex = 0 then (s.queue.length : Int) - 1 else s.queueIndex - 1)
        = some t := by
      unfold jsIndex
      rw [if_pos hpb.1, ht]
    rw [hjs]
    obtain ⟨p1, p2, p3, _, _, _⟩ := playTrack_none_fields t
      { s with queueIndex :=
          if s.queueIndex = 0 then (s.queue.length : Int) - 1 else s.queueIndex - 1 }
    exact ⟨p1, by rw [p2], p3⟩

/-- Witness for C3: at progress 10 s (> 3 s) previous() on the 3-track
queue only rewinds the engine clock; at progress 0 from index 0 it wraps
to index 2. -/
theorem c3_witness :
    previous (demoPrev10 RepeatMode.one)
      = { demoPrev10 RepeatMode.one with
            engine := { (demoPrev10 RepeatMode.one).engine with currentTime := 0 } } ∧
    (previous { demoState3 with queueIndex := 0 }).queueIndex = 2 := by
  constructor
  · exact (c3_previous_threshold (demoPrev10 RepeatMode.one) (by decide)).1 (by decide)
  · exact ((c3_previous_threshold { demoState3 with queueIndex := 0 } (by decide)).2
      (by decide) (by decide) (by decide) (by decide)).1.trans (by decide)

theorem map_const_zero_eq_replicate (l : List ℚ) :
    l.map (fun _ => (0 : ℚ)) = List.replicate l.length 0 := by
  induction l with
  | nil => rfl
  | cons a rest ih => simp [ih, List.replicate_succ]

/-- C7: toggleEQ() from enabled to disabled forces every live filter
node's gain to 0 while the eqBands vector stored in EQ State is left
unchanged; toggleEQ() back to enabled re-applies exactly that stored
vector to the graph — exactly, for a legitimate EQ State whose stored
gains lie in [-12, 12] and match the number of filter nodes. -/
theorem c7_eq_bypass (s : PlayerState)
    (hon : s.eqEnabled = true)
    (hlen : s.eqBands.length = s.engine.eqGains.length)
    (hr : ∀ g ∈ s.eqBands, -12 ≤ g ∧ g ≤ 12) :
    (toggleEQ s).engine.eqGains = List.replicate s.engine.eqGains.length 0 ∧
    (toggleEQ s).eqBands = s.eqBands ∧
    (toggleEQ s).eqEnabled = false ∧
    (toggleEQ (toggleEQ s)).engine.eqGains = s.eqBands ∧
    (toggleEQ (toggleEQ s)).eqEnabled = true := by
  have e1 : toggleEQ s
      = { s with engine := { s.engine with eqGains := s.engine.eqGains.map (fun _ => 0) },
                 eqEnabled := false } := by
    simp [toggleEQ, hon, AudioEngine.setEQEnabled]
  have e2 : toggleEQ (toggleEQ s)
      = { s with engine := AudioEngine.setEQBands s.eqBands
                   { s.engine with eqGains := s.engine.eqGains.map (fun _ => 0) },
                 eqEnabled := true } := by
    rw [e1]
    simp [toggleEQ, AudioEngine.setEQEnabled]
  refine ⟨?_, by rw [e1], by rw [e1], ?_, by rw [e2]⟩
  · rw [e1]
    exact map_const_zero_eq_replicate s.engine.eqGains
  · rw [e2]
    show (AudioEngine.setEQBands s.eqBands
      { s.engine with eqGains := s.engine.eqGains.map (fun _ => 0) }).eqGains = s.eqBands
    exact setEQBands_exact s.eqBands _ (by simp [hlen]) hr

/-- A state whose EQ bands hold a distinctive in-range vector. -/
def demoEq : PlayerState :=
  { demoState3 with eqBands := [1, 2, 3, 4, 5, 6, 7, 8, 9, 10],
                    engine := { initEngine with
                                  eqGains := [1, 2, 3, 4, 5, 6, 7, 8, 9, 10] } }

/-- Witness for C7: toggling the EQ off zeroes the ten live gains and
toggling it back on restores the stored vector verbatim. -/
theorem c7_witness :
    (toggleEQ demoEq).engine.eqGains = List.replicate 10 0 ∧
    (toggleEQ demoEq).eqBands = [1, 2, 3, 4, 5, 6, 7, 8, 9, 10] ∧
    (toggleEQ (toggleEQ demoEq)).engine.eqGains = [1, 2, 3, 4, 5, 6, 7, 8, 9, 10] := by
  have h := c7_eq_bypass demoEq (by decide) (by decide) (by decide)
  exact ⟨h.1.trans (by decide), h.2.1.trans (by decide), h.2.2.2.1.trans (by decide)⟩

/-- C1 counterexample: removeFromQueue(-1) removes nothing (no position
equals -1) yet decrements the stored index: from the 3-track queue at
index 2 the queue is unchanged, the index moves to 1, which is not -1
and denotes entry "b" although entry "c" was current and no entry was
removed. -/
theorem c1_counterexample :
    (removeFromQueue (-1) demoState3).queue = demoState3.queue ∧
    (removeFromQueue (-1) demoState3).queueIndex = 1 ∧
    ¬ jsIndex (removeFromQueue (-1) demoState3).queue
        (removeFromQueue (-1) demoState3).queueIndex
      = jsIndex demoState3.queue demoState3.queueIndex := by decide

theorem queueInv_update (s : PlayerState) (q : List Track) (qi : Int) :
    queueInv { s with queue := q, queueIndex := qi }
      ↔ (qi = -1 ∨ (0 ≤ qi ∧ qi < (q.length : Int))) :=
  Iff.rfl

theorem pointsSame_update (s : PlayerState) (q : List Track) (qi : Int) :
    pointsSame s { s with queue := q, queueIndex := qi }
      ↔ (qi ≠ -1 → jsIndex q qi = jsIndex s.queue s.queueIndex) :=
  Iff.rfl

/-- C1 amended: the queue-index invariant is preserved by every queue
mutation whose index arguments are in range: for every state with
queueIndex ∈ {-1} ∪ [0, queue.length), after addToQueue (any track),
removeFromQueue(i) with 0 ≤ i < length, reorderQueue(from, to) with
both indices in [0, length), and clearQueue(), the index is again -1 or
in [0, new length), and whenever it is not -1 it denotes the entry that
was current before the mutation — except, for removal, when the removed
entry is the current one.  (Negative index arguments escape this; see
the counterexample.) -/
theorem c1_queue_invariant (s : PlayerState) (hInv : queueInv s) :
    (∀ tr, queueInv (addToQueue tr s) ∧ pointsSame s (addToQueue tr s)) ∧
    (∀ i : Int, 0 ≤ i → i < (s.queue.length : Int) →
      queueInv (removeFromQueue i s) ∧
      (i = s.queueIndex ∨ pointsSame s (removeFromQueue i s))) ∧
    (∀ f t : Int, 0 ≤ f → f < (s.queue.length : Int) →
      0 ≤ t → t < (s.queue.length : Int) →
      queueInv (reorderQueue f t s) ∧ pointsSame s (reorderQueue f t s)) ∧
    queueInv (clearQueue s) := by
  refine ⟨?_, ?_, ?_, Or.inl rfl⟩
  · -- addToQueue
    intro tr
    constructor
    · show s.queueIndex = -1 ∨ (0 ≤ s.queueIndex ∧ s.queueIndex < ((s.queue ++ [tr]).length : Int))
      rcases hInv with h | h
      · exact Or.inl h
      · right
        rw [List.length_append]
        push_cast
        omega
    · intro hne
      show jsIndex (s.queue ++ [tr]) s.queueIndex = jsIndex s.queue s.queueIndex
      rcases hInv with h | h
      · exact absurd h hne
      · unfold jsIndex
        rw [if_pos h.1, if_pos h.1]
        exact get?_append_left s.queue [tr] s.queueIndex.toNat (by omega)
  · -- removeFromQueue, in-range index
    intro i h0 hlt
    have hq : filterIdxNe i 0 s.queue = s.queue.eraseIdx i.toNat := by
      have h := filterIdxNe_of_ge i s.queue 0 (by exact_mod_cast h0)
      simpa using h
    have hlen' : (s.queue.eraseIdx i.toNat).length = s.queue.length - 1 :=
      length_eraseIdx_lt s.queue i.toNat (by omega)
    simp only [removeFromQueue, hq]
    by_cases hA : i < s.queueIndex
    · rw [if_pos hA]
      constructor
      · rw [queueInv_update]
        rcases hInv with h | h <;> omega
      · right
        rw [pointsSame_update]
        intro _
        unfold jsIndex
        rcases hInv with h | h
        · exfalso; omega
        · rw [if_pos (by omega), if_pos (by omega)]
          rw [get?_eraseIdx_ge s.queue i.toNat (s.queueIndex - 1).toNat (by omega) (by omega)]
          congr 1
          omega
    · rw [if_neg hA]
      by_cases hB : i = s.queueIndex
      · refine ⟨?_, Or.inl hB⟩
        by_cases hC : ((s.queue.eraseIdx i.toNat).length : Int) ≤ s.queueIndex
        · rw [if_pos ⟨hB, hC⟩, queueInv_update]
          omega
        · rw [if_neg (fun hcc => hC hcc.2), queueInv_update]
          omega
      · rw [if_neg (fun hcc => hB hcc.1)]
        constructor
        · rw [queueInv_update]
          rcases hInv with h | h <;> omega
        · right
          rw [pointsSame_update]
          intro hne
          have hqi : 0 ≤ s.queueIndex ∧ s.queueIndex < (s.queue.length : Int) := by
            rcases hInv with h | h
            · exact absurd h hne
            · exact h
          unfold jsIndex
          rw [if_pos hqi.1, if_pos hqi.1]
          exact get?_eraseIdx_lt s.queue i.toNat s.queueIndex.toNat (by omega)
  · -- reorderQueue, in-range indices
    intro f t hf0 hfL ht0 htL
    have hstart : spliceStart s.queue.length f = f.toNat := by
      unfold spliceStart
      rw [if_neg (by omega)]
      exact min_eq_left (by omega)
    obtain ⟨tk, htk⟩ := get?_isSome_of_lt s.queue f.toNat (by omega)
    have hq1len : (s.queue.eraseIdx f.toNat).length = s.queue.length - 1 :=
      length_eraseIdx_lt s.queue f.toNat (by omega)
    have hins : spliceStart (s.queue.eraseIdx f.toNat).length t = t.toNat := by
      unfold spliceStart
      rw [if_neg (by omega), hq1len]
      exact min_eq_left (by omega)
    have hlen2 : (List.insertIdx t.toNat tk (s.queue.eraseIdx f.toNat)).length
        = s.queue.length := by
      rw [length_insertIdx_le tk (s.queue.eraseIdx f.toNat) t.toNat (by rw [hq1len]; omega)]
      rw [hq1len]
      omega
    have htle : t.toNat ≤ (s.queue.eraseIdx f.toNat).length := by
      rw [hq1len]; omega
    simp only [reorderQueue, hstart, htk, hins]
    by_cases h1 : s.queueIndex = f
    · rw [if_pos h1]
      constructor
      · rw [queueInv_update]
        omega
      · rw [pointsSame_update]
        intro _
        unfold jsIndex
        rw [if_pos ht0, if_pos (by omega)]
        rw [get?_insertIdx_self tk (s.queue.eraseIdx f.toNat) t.toNat htle]
        rw [show s.queueIndex.toNat = f.toNat from by omega, htk]
    · rw [if_neg h1]
      by_cases h2 : f < s.queueIndex ∧ s.queueIndex ≤ t
      · rw [if_pos h2]
        constructor
        · rw [queueInv_update]
          omega
        · rw [pointsSame_update]
          intro _
          unfold jsIndex
          rw [if_pos (by omega), if_pos (by omega)]
          rw [get?_insertIdx_lt tk (s.queue.eraseIdx f.toNat) t.toNat
            (s.queueIndex - 1).toNat (by omega)]
          rw [get?_eraseIdx_ge s.queue f.toNat (s.queueIndex - 1).toNat (by omega) (by omega)]
          congr 1
          omega
      · rw [if_neg h2]
        by_cases h3 : s.queueIndex < f ∧ t ≤ s.queueIndex
        · rw [if_pos h3]
          constructor
          · rw [queueInv_update]
            omega
          · rw [pointsSame_update]
            intro _
            unfold jsIndex
            rw [if_pos (by omega), if_pos (by omega)]
            rw [get?_insertIdx_gt tk (s.queue.eraseIdx f.toNat) t.toNat
              (s.queueIndex + 1).toNat (by omega) htle]
            rw [get?_eraseIdx_lt s.queue f.toNat ((s.queueIndex + 1).toNat - 1) (by omega)]
            congr 1
            omega
        · rw [if_neg h3]
          constructor
          · rw [queueInv_update]
            rcases hInv with h | h <;> omega
          · rw [pointsSame_update]
            intro hne
            have hqi : 0 ≤ s.queueIndex ∧ s.queueIndex < (s.queue.length : Int) := by
              rcases hInv with h | h
              · exact absurd h hne
              · exact h
            unfold jsIndex
            rw [if_pos hqi.1, if_pos hqi.1]
            by_cases hqf : s.queueIndex < f
            · have hqt : s.queueIndex < t := by omega
              rw [get?_insertIdx_lt tk (s.queue.eraseIdx f.toNat) t.toNat
                s.queueIndex.toNat (by omega)]
              exact get?_eraseIdx_lt s.queue f.toNat s.queueIndex.toNat (by omega)
            · have hfq : f < s.queueIndex := by omega
              have htq : t < s.queueIndex := by omega
              rw [get?_insertIdx_gt tk (s.queue.eraseIdx f.toNat) t.toNat
                s.queueIndex.toNat (by omega) htle]
              rw [get?_eraseIdx_ge s.queue f.toNat (s.queueIndex.toNat - 1) (by omega) (by omega)]
              congr 1
              omega

/-- Witness for C1 amended: on the 3-track queue at index 2, an in-range
removal at 0 keeps the invariant and keeps the index on entry "c", and
an in-range reorder of 0 to 2 does too. -/
theorem c1_witness :
    queueInv demoState3 ∧
    queueInv (removeFromQueue 0 demoState3) ∧
    jsIndex (removeFromQueue 0 demoState3).queue (removeFromQueue 0 demoState3).queueIndex
      = jsIndex demoState3.queue demoState3.queueIndex ∧
    queueInv (reorderQueue 0 2 demoState3) ∧
    jsIndex (reorderQueue 0 2 demoState3).queue (reorderQueue 0 2 demoState3).queueIndex
      = jsIndex demoState3.queue demoState3.queueIndex := by
  have h := c1_queue_invariant demoState3 (by decide)
  have hrm := h.2.1 0 (by decide) (by decide)
  have hro := h.2.2.1 0 2 (by decide) (by decide) (by decide) (by decide)
  refine ⟨by decide, hrm.1, ?_, hro.1, hro.2 (by decide)⟩
  rcases hrm.2 with hc | hp
  · exact absurd hc (by decide)
  · exact hp (by decide)

/-- Witness for C10: an unknown name is a no-op on the initial state; the
Rock preset lands verbatim in the stored vector. -/
theorem c10_witness :
    applyEQPreset "Nope" initState = initState ∧
    (applyEQPreset "Rock" initState).eqBands = [4, 3, 1, 0, -1, 0, 1, 3, 4, 4] := by
  constructor
  · exact (c10_applyEQPreset initState "Nope").1 (by decide)
  · exact ((c10_applyEQPreset initState "Rock").2
      { name := "Rock", bands := [4, 3, 1, 0, -1, 0, 1, 3, 4, 4] } (by decide)).1

end StreamHub
